import Mathlib

/-!
Verification of the perceptron-backend content service (`src/server.js`).

The development shallowly embeds the pure parts of the server: the slug
normalizer `sanitizeSlug`, the excerpt derivation `summarize`, the zod
payload schema, the token issue/verify protocol, the auth middleware,
and the create/list pipelines.  Strings are modelled as their character
lists; JavaScript regular-expression passes are modelled as structurally
recursive character scanners.  External collaborators (the document
store, the URL validator inside zod, `Date` parsing and locale date
formatting from the host runtime) are parameters of the definitions
that use them.  The ASCII case mapping of `String.prototype.toLowerCase`
is modelled; full Unicode case mapping is outside scope.
-/

set_option maxHeartbeats 1000000

namespace PerceptronBackend

/-- Code points matched by the JavaScript regex class `\s` (the same set is
trimmed by `String.prototype.trim`). -/
def isWsCode (n : Nat) : Bool :=
  n = 9 || n = 10 || n = 11 || n = 12 || n = 13 || n = 32 || n = 160 || n = 5760 ||
  (8192 ≤ n && n ≤ 8202) || n = 8232 || n = 8233 || n = 8239 || n = 8287 ||
  n = 12288 || n = 65279

def isWs (c : Char) : Bool := isWsCode c.toNat

/-- Characters matched by `[a-z0-9]`. -/
def isLowerAlphaNum (c : Char) : Bool :=
  (97 ≤ c.toNat && c.toNat ≤ 122) || (48 ≤ c.toNat && c.toNat ≤ 57)

/-- Characters kept by `.replace(/[^a-z0-9\s-]/g, '')` in `sanitizeSlug`. -/
def keepChar (c : Char) : Bool := isLowerAlphaNum c || isWs c || decide (c = '-')

/-- ASCII case mapping of `String.prototype.toLowerCase`. -/
def jsToLowerChar (c : Char) : Char :=
  if 65 ≤ c.toNat && c.toNat ≤ 90 then Char.ofNat (c.toNat + 32) else c

/-- `String.prototype.trim`: drop `\s` characters from both ends. -/
def trimChars (l : List Char) : List Char :=
  ((l.dropWhile isWs).reverse.dropWhile isWs).reverse

def jsTrim (s : String) : String := String.mk (trimChars s.data)

/-- Replace every maximal run of characters satisfying `p` by the single
character `r`: the semantics of `.replace(/X+/g, 'r')` for a character
class `X`.  The flag records whether the scanner is inside a run. -/
def runCollapse (p : Char → Bool) (r : Char) : List Char → Bool → List Char
  | [], _ => []
  | c :: cs, inRun =>
    if p c then
      (if inRun then runCollapse p r cs true else r :: runCollapse p r cs true)
    else c :: runCollapse p r cs false

def isHyphen (c : Char) : Bool := decide (c = '-')

/-- One application of the alternative `^-` of `.replace(/^-|-$/g, '')`. -/
def dropLeadHyphen (l : List Char) : List Char :=
  match l with
  | [] => []
  | c :: rest => if c = '-' then rest else c :: rest

/-- One application of the alternative `-$` of `.replace(/^-|-$/g, '')`. -/
def dropTrailHyphen (l : List Char) : List Char := (dropLeadHyphen l.reverse).reverse

def stripEdgeHyphens (l : List Char) : List Char := dropTrailHyphen (dropLeadHyphen l)

/-- `sanitizeSlug` from `src/server.js`:
lowercase, trim, strip `[^a-z0-9\s-]`, `\s+` → `-`, `-+` → `-`, strip edge
hyphens. -/
def sanitizeChars (l : List Char) : List Char :=
  stripEdgeHyphens
    (runCollapse isHyphen '-'
      (runCollapse isWs '-' ((trimChars (l.map jsToLowerChar)).filter keepChar) false)
      false)

def sanitizeSlug (s : String) : String := String.mk (sanitizeChars s.data)

/-- Deterministic scanner for the anchored regex `^[a-z0-9]+(?:-[a-z0-9]+)*$`.
The flag records whether at least one segment character has just been read. -/
def matchSlugAux : List Char → Bool → Bool
  | [], inSeg => inSeg
  | c :: cs, inSeg =>
    if isLowerAlphaNum c then matchSlugAux cs true
    else if c = '-' then inSeg && matchSlugAux cs false
    else false

/-- The slug character-class rule of `blogPayloadSchema`. -/
def slugRegexMatches (s : String) : Bool := matchSlugAux s.data false

/-- The full slug rule of `blogPayloadSchema`: `min(3).max(160).regex(...)`. -/
def slugFieldOk (s : String) : Bool :=
  decide (3 ≤ s.length) && decide (s.length ≤ 160) && slugRegexMatches s

/-! ### Structural properties of slug-shaped character lists -/

def AllSlugClass (l : List Char) : Prop := ∀ c ∈ l, isLowerAlphaNum c = true ∨ c = '-'

def NoTwoHyphens (l : List Char) : Prop := l.Chain' (fun a d => ¬(a = '-' ∧ d = '-'))

def HeadNotHyphen (l : List Char) : Prop := ∀ h ∈ l.head?, h ≠ '-'

def LastNotHyphen (l : List Char) : Prop := ∀ h ∈ l.getLast?, h ≠ '-'

theorem isLowerAlphaNum_ne_hyphen {c : Char} (h : isLowerAlphaNum c = true) : c ≠ '-' := by
  intro he
  subst he
  simp [isLowerAlphaNum] at h

theorem slugClass_not_ws {c : Char} (h : isLowerAlphaNum c = true ∨ c = '-') :
    isWs c = false := by
  rcases h with h | h
  · simp only [isLowerAlphaNum, Bool.or_eq_true, Bool.and_eq_true, decide_eq_true_eq] at h
    simp only [isWs, isWsCode, Bool.or_eq_false_iff, Bool.and_eq_false_iff,
      decide_eq_false_iff_not]
    omega
  · subst h
    decide

theorem slugClass_keep {c : Char} (h : isLowerAlphaNum c = true ∨ c = '-') :
    keepChar c = true := by
  rcases h with h | h
  · simp [keepChar, h]
  · subst h; decide

theorem slugClass_toLower {c : Char} (h : isLowerAlphaNum c = true ∨ c = '-') :
    jsToLowerChar c = c := by
  rcases h with h | h
  · simp only [isLowerAlphaNum, Bool.or_eq_true, Bool.and_eq_true, decide_eq_true_eq] at h
    simp only [jsToLowerChar, Bool.and_eq_true, decide_eq_true_eq, ite_eq_right_iff]
    omega
  · subst h; decide

/-! ### Lemmas about `runCollapse` -/

theorem mem_runCollapse {p : Char → Bool} {r : Char} :
    ∀ {l : List Char} {b : Bool} {c : Char}, c ∈ runCollapse p r l b →
      c = r ∨ (c ∈ l ∧ p c = false)
  | [], b, c, h => by simp [runCollapse] at h
  | a :: as, b, c, h => by
    by_cases hp : p a
    · simp only [runCollapse, hp, if_true] at h
      cases b with
      | true =>
        rcases mem_runCollapse h with h1 | ⟨h1, h2⟩
        · exact Or.inl h1
        · exact Or.inr ⟨List.mem_cons_of_mem _ h1, h2⟩
      | false =>
        rcases List.mem_cons.mp h with h1 | h1
        · exact Or.inl h1
        · rcases mem_runCollapse h1 with h2 | ⟨h2, h3⟩
          · exact Or.inl h2
          · exact Or.inr ⟨List.mem_cons_of_mem _ h2, h3⟩
    · simp only [runCollapse, hp, if_false] at h
      rcases List.mem_cons.mp h with h1 | h1
      · subst h1
        exact Or.inr ⟨List.mem_cons_self _ _, by simpa using hp⟩
      · rcases mem_runCollapse h1 with h2 | ⟨h2, h3⟩
        · exact Or.inl h2
        · exact Or.inr ⟨List.mem_cons_of_mem _ h2, h3⟩

theorem runCollapse_chain (p : Char → Bool) (r : Char) :
    ∀ (l : List Char) (b : Bool),
      (runCollapse p r l b).Chain' (fun a d => ¬(p a = true ∧ p d = true)) ∧
      (∀ h ∈ (runCollapse p r l true).head?, p h = false)
  | [], b => by constructor <;> simp [runCollapse]
  | a :: as, b => by
    by_cases hp : p a
    · have ih := runCollapse_chain p r as true
      constructor
      · simp only [runCollapse, hp, if_true]
        cases b with
        | true => exact ih.1
        | false =>
          simp only [if_false, Bool.false_eq_true]
          rw [List.chain'_cons']
          refine ⟨?_, ih.1⟩
          intro y hy
          have := ih.2 y hy
          intro hc
          rw [this] at hc
          exact absurd hc.2 (by simp)
      · simp only [runCollapse, hp, if_true]
        exact ih.2
    · have ih := runCollapse_chain p r as false
      have hpf : p a = false := by simpa using hp
      constructor
      · simp only [runCollapse, hpf, Bool.false_eq_true, if_false]
        rw [List.chain'_cons']
        refine ⟨?_, ih.1⟩
        intro y _ hc
        rw [hpf] at hc
        exact absurd hc.1 (by simp)
      · simp only [runCollapse, hpf, Bool.false_eq_true, if_false]
        intro h hh
        simp only [List.head?_cons, Option.mem_def, Option.some.injEq] at hh
        subst hh
        exact hpf

theorem runCollapse_eq_self_of_none {p : Char → Bool} {r : Char} :
    ∀ {l : List Char} (b : Bool), (∀ c ∈ l, p c = false) → runCollapse p r l b = l
  | [], b, _ => by simp [runCollapse]
  | a :: as, b, h => by
    have ha : p a = false := h a (List.mem_cons_self _ _)
    simp only [runCollapse, ha, Bool.false_eq_true, if_false]
    rw [runCollapse_eq_self_of_none false (fun c hc => h c (List.mem_cons_of_mem _ hc))]

theorem runCollapse_eq_self_of_chain {p : Char → Bool} {r : Char}
    (hp : ∀ c, p c = true → c = r) :
    ∀ {l : List Char} {b : Bool},
      l.Chain' (fun a d => ¬(p a = true ∧ p d = true)) →
      (b = true → ∀ h ∈ l.head?, p h = false) →
      runCollapse p r l b = l
  | [], b, _, _ => by simp [runCollapse]
  | a :: as, b, hc, hh => by
    by_cases hpa : p a
    · cases b with
      | true =>
        have := hh rfl a (by simp)
        rw [this] at hpa
        exact absurd hpa (by simp)
      | false =>
        simp only [runCollapse, hpa, Bool.false_eq_true, if_true, if_false]
        rw [hp a hpa]
        congr 1
        refine runCollapse_eq_self_of_chain (b := true) hp (List.chain'_cons'.mp hc).2 ?_
        intro _ y hy
        have := (List.chain'_cons'.mp hc).1 y hy
        by_cases hpy : p y
        · exact absurd ⟨hpa, hpy⟩ this
        · simpa using hpy
    · have hpf : p a = false := by simpa using hpa
      simp only [runCollapse, hpf, Bool.false_eq_true, if_false]
      congr 1
      exact runCollapse_eq_self_of_chain (b := false) hp (List.chain'_cons'.mp hc).2
        (by simp)

/-! ### Lemmas about `trimChars`, `dropWhile`, and the edge-hyphen strippers -/

theorem dropWhile_eq_self_of_none {p : Char → Bool} {l : List Char}
    (h : ∀ c ∈ l, p c = false) : l.dropWhile p = l := by
  cases l with
  | nil => rfl
  | cons a as =>
    rw [List.dropWhile_cons_of_neg]
    simp [h a (List.mem_cons_self _ _)]

theorem head?_dropWhile_false {p : Char → Bool} :
    ∀ l : List Char, ∀ h ∈ (l.dropWhile p).head?, p h = false
  | [], h, hh => by simp at hh
  | a :: as, h, hh => by
    by_cases hp : p a
    · rw [List.dropWhile_cons_of_pos hp] at hh
      exact head?_dropWhile_false as h hh
    · rw [List.dropWhile_cons_of_neg hp] at hh
      simp only [List.head?_cons, Option.mem_def, Option.some.injEq] at hh
      subst hh
      simpa using hp

theorem trimChars_eq_self {l : List Char} (h : ∀ c ∈ l, isWs c = false) :
    trimChars l = l := by
  unfold trimChars
  rw [dropWhile_eq_self_of_none h,
    dropWhile_eq_self_of_none (fun c hc => h c (List.mem_reverse.mp hc)),
    List.reverse_reverse]

theorem mem_trimChars {l : List Char} {c : Char} (h : c ∈ trimChars l) : c ∈ l := by
  unfold trimChars at h
  rw [List.mem_reverse] at h
  have h1 := (List.dropWhile_sublist _).mem h
  rw [List.mem_reverse] at h1
  exact (List.dropWhile_sublist _).mem h1

theorem mem_dropLeadHyphen {l : List Char} {c : Char} (h : c ∈ dropLeadHyphen l) :
    c ∈ l := by
  cases l with
  | nil => simp [dropLeadHyphen] at h
  | cons a as =>
    by_cases ha : a = '-'
    · simp only [dropLeadHyphen, ha, if_true] at h
      exact List.mem_cons_of_mem _ h
    · simpa [dropLeadHyphen, ha] using h

theorem noTwo_dropLeadHyphen {l : List Char} (h : NoTwoHyphens l) :
    NoTwoHyphens (dropLeadHyphen l) := by
  cases l with
  | nil => simpa [dropLeadHyphen] using h
  | cons a as =>
    by_cases ha : a = '-'
    · simp only [dropLeadHyphen, ha, if_true]
      exact (List.chain'_cons'.mp h).2
    · simpa [dropLeadHyphen, ha] using h

theorem headNot_dropLeadHyphen {l : List Char} (h : NoTwoHyphens l) :
    HeadNotHyphen (dropLeadHyphen l) := by
  cases l with
  | nil => intro x hx; simp [dropLeadHyphen] at hx
  | cons a as =>
    by_cases ha : a = '-'
    · simp only [dropLeadHyphen, ha, if_true]
      intro x hx
      have := (List.chain'_cons'.mp h).1 x hx
      intro hx2
      subst ha hx2
      exact this ⟨rfl, rfl⟩
    · simp only [dropLeadHyphen, ha, if_false]
      intro x hx
      simp only [List.head?_cons, Option.mem_def, Option.some.injEq] at hx
      subst hx
      exact ha

theorem lastNot_dropLeadHyphen {l : List Char} (h : LastNotHyphen l) :
    LastNotHyphen (dropLeadHyphen l) := by
  cases l with
  | nil => intro x hx; simp [dropLeadHyphen] at hx
  | cons a as =>
    by_cases ha : a = '-'
    · simp only [dropLeadHyphen, ha, if_true]
      cases as with
      | nil => intro x hx; simp at hx
      | cons b bs =>
        intro x hx
        exact h x (by rwa [List.getLast?_cons_cons])
    · simpa [dropLeadHyphen, ha] using h

theorem noTwo_reverse {l : List Char} (h : NoTwoHyphens l) : NoTwoHyphens l.reverse := by
  unfold NoTwoHyphens at *
  rw [List.chain'_reverse]
  exact h.imp (fun a b hab hc => hab ⟨hc.2, hc.1⟩)

theorem dropLeadHyphen_eq_self {l : List Char} (h : HeadNotHyphen l) :
    dropLeadHyphen l = l := by
  cases l with
  | nil => rfl
  | cons a as =>
    have : a ≠ '-' := h a (by simp)
    simp [dropLeadHyphen, this]

theorem mem_stripEdgeHyphens {l : List Char} {c : Char} (h : c ∈ stripEdgeHyphens l) :
    c ∈ l := by
  unfold stripEdgeHyphens dropTrailHyphen at h
  rw [List.mem_reverse] at h
  have h1 := mem_dropLeadHyphen h
  rw [List.mem_reverse] at h1
  exact mem_dropLeadHyphen h1

theorem shape_stripEdgeHyphens {l : List Char} (h : NoTwoHyphens l) :
    NoTwoHyphens (stripEdgeHyphens l) ∧ HeadNotHyphen (stripEdgeHyphens l) ∧
      LastNotHyphen (stripEdgeHyphens l) := by
  unfold stripEdgeHyphens dropTrailHyphen
  set m := dropLeadHyphen l with hm
  have hmNoTwo : NoTwoHyphens m := noTwo_dropLeadHyphen h
  have hmHead : HeadNotHyphen m := headNot_dropLeadHyphen h
  have hrev : NoTwoHyphens m.reverse := noTwo_reverse hmNoTwo
  refine ⟨?_, ?_, ?_⟩
  · have := noTwo_dropLeadHyphen hrev
    have := noTwo_reverse this
    exact this
  · intro x hx
    rw [List.head?_reverse] at hx
    have hLast : LastNotHyphen m.reverse := by
      intro y hy
      rw [List.getLast?_reverse] at hy
      exact hmHead y hy
    exact lastNot_dropLeadHyphen hLast x hx
  · intro x hx
    rw [List.getLast?_reverse] at hx
    exact headNot_dropLeadHyphen hrev x hx

theorem stripEdgeHyphens_eq_self {l : List Char} (h1 : HeadNotHyphen l)
    (h2 : LastNotHyphen l) : stripEdgeHyphens l = l := by
  unfold stripEdgeHyphens dropTrailHyphen
  rw [dropLeadHyphen_eq_self h1]
  have : HeadNotHyphen l.reverse := by
    intro x hx
    rw [List.head?_reverse] at hx
    exact h2 x hx
  rw [dropLeadHyphen_eq_self this, List.reverse_reverse]

/-! ### The regex scanner versus the structural shape -/

theorem matchSlugAux_of_shape :
    ∀ l : List Char, AllSlugClass l → NoTwoHyphens l → LastNotHyphen l →
      matchSlugAux l true = true ∧
        (HeadNotHyphen l → l = [] ∨ matchSlugAux l false = true)
  | [], _, _, _ => ⟨rfl, fun _ => Or.inl rfl⟩
  | c :: cs, hall, htwo, hlast => by
    have hc := hall c (List.mem_cons_self _ _)
    have hallcs : AllSlugClass cs := fun d hd => hall d (List.mem_cons_of_mem _ hd)
    have htwocs : NoTwoHyphens cs := (List.chain'_cons'.mp htwo).2
    rcases hc with hc | hc
    · have hlastcs : LastNotHyphen cs := by
        cases cs with
        | nil => intro x hx; simp at hx
        | cons d ds =>
          intro x hx
          exact hlast x (by rwa [List.getLast?_cons_cons])
      have ih := matchSlugAux_of_shape cs hallcs htwocs hlastcs
      constructor
      · simp only [matchSlugAux, hc, if_true]
        exact ih.1
      · intro _
        right
        simp only [matchSlugAux, hc, if_true]
        exact ih.1
    · subst hc
      have hcsne : cs ≠ [] := by
        intro he
        subst he
        exact hlast '-' (by simp) rfl
      have hlastcs : LastNotHyphen cs := by
        cases cs with
        | nil => intro x hx; simp at hx
        | cons d ds =>
          intro x hx
          exact hlast x (by rwa [List.getLast?_cons_cons])
      have hheadcs : HeadNotHyphen cs := by
        intro y hy hyh
        subst hyh
        exact (List.chain'_cons'.mp htwo).1 '-' hy ⟨rfl, rfl⟩
      have ih := matchSlugAux_of_shape cs hallcs htwocs hlastcs
      have hm : matchSlugAux cs false = true := by
        rcases ih.2 hheadcs with h | h
        · exact absurd h hcsne
        · exact h
      constructor
      · simp only [matchSlugAux]
        rw [if_neg (by simp [isLowerAlphaNum])]
        simp [hm]
      · intro hhead
        exact absurd rfl (hhead '-' (by simp))

/-! ### The shape of `sanitizeChars` output -/

theorem sanitizeChars_shape (l : List Char) :
    AllSlugClass (sanitizeChars l) ∧ NoTwoHyphens (sanitizeChars l) ∧
      HeadNotHyphen (sanitizeChars l) ∧ LastNotHyphen (sanitizeChars l) := by
  unfold sanitizeChars
  set l1 := (trimChars (l.map jsToLowerChar)).filter keepChar with hl1
  set l2 := runCollapse isWs '-' l1 false with hl2
  set l3 := runCollapse isHyphen '-' l2 false with hl3
  have hall2 : AllSlugClass l2 := by
    intro c hc
    rcases mem_runCollapse hc with hc | ⟨hc, hws⟩
    · exact Or.inr hc
    · have hk : keepChar c = true := List.of_mem_filter hc
      simp only [keepChar, Bool.or_eq_true, decide_eq_true_eq] at hk
      rcases hk with (hk | hk) | hk
      · exact Or.inl hk
      · rw [hk] at hws; exact absurd hws (by simp)
      · exact Or.inr hk
  have hall3 : AllSlugClass l3 := by
    intro c hc
    rcases mem_runCollapse hc with hc | ⟨hc, _⟩
    · exact Or.inr hc
    · exact hall2 c hc
  have htwo3 : NoTwoHyphens l3 := by
    have := (runCollapse_chain isHyphen '-' l2 false).1
    exact this.imp (fun a b hab hc => hab (by simp [isHyphen, hc.1, hc.2]))
  have hstrip := shape_stripEdgeHyphens htwo3
  refine ⟨?_, hstrip.1, hstrip.2.1, hstrip.2.2⟩
  intro c hc
  exact hall3 c (mem_stripEdgeHyphens hc)

/-! ### `sanitizeChars` is the identity on slug-shaped lists -/

theorem map_toLower_eq_self {l : List Char} (h : AllSlugClass l) :
    l.map jsToLowerChar = l := by
  induction l with
  | nil => rfl
  | cons a as ih =>
    rw [List.map_cons, slugClass_toLower (h a (List.mem_cons_self _ _)),
      ih (fun d hd => h d (List.mem_cons_of_mem _ hd))]

theorem sanitizeChars_eq_self {l : List Char} (h1 : AllSlugClass l)
    (h2 : NoTwoHyphens l) (h3 : HeadNotHyphen l) (h4 : LastNotHyphen l) :
    sanitizeChars l = l := by
  unfold sanitizeChars
  have hnws : ∀ c ∈ l, isWs c = false := fun c hc => slugClass_not_ws (h1 c hc)
  rw [map_toLower_eq_self h1, trimChars_eq_self hnws,
    List.filter_eq_self.mpr (fun c hc => slugClass_keep (h1 c hc)),
    runCollapse_eq_self_of_none false hnws,
    runCollapse_eq_self_of_chain (b := false)
      (fun c hc => by simpa [isHyphen] using hc)
      (h2.imp (fun a b hab hc => hab (by simpa [isHyphen] using hc)))
      (by simp),
    stripEdgeHyphens_eq_self h3 h4]

/-- C4: `sanitizeSlug` is a total function (in particular it maps the empty
string to the empty string) and it is idempotent:
`sanitizeSlug (sanitizeSlug x) = sanitizeSlug x` for every string `x`. -/
theorem sanitizeSlug_total_idempotent :
    sanitizeSlug "" = "" ∧
      ∀ x : String, sanitizeSlug (sanitizeSlug x) = sanitizeSlug x := by
  constructor
  · rfl
  · intro x
    have hs := sanitizeChars_shape x.data
    show String.mk (sanitizeChars (sanitizeChars x.data)) = String.mk (sanitizeChars x.data)
    rw [sanitizeChars_eq_self hs.1 hs.2.1 hs.2.2.1 hs.2.2.2]

/-- C9: for every input string, `sanitizeSlug` returns either the empty string
or a string matching `^[a-z0-9]+(?:-[a-z0-9]+)*$`; consequently a normalized
slug that satisfies the schema's length bounds (3 to 160) always passes the
full slug rule of `blogPayloadSchema` — it can never be rejected by the slug
character-class rule. -/
theorem sanitizeSlug_regex_invariant (x : String) :
    (sanitizeSlug x = "" ∨ slugRegexMatches (sanitizeSlug x) = true) ∧
      (3 ≤ (sanitizeSlug x).length → (sanitizeSlug x).length ≤ 160 →
        slugFieldOk (sanitizeSlug x) = true) := by
  have hs := sanitizeChars_shape x.data
  have hmatch := matchSlugAux_of_shape (sanitizeChars x.data) hs.1 hs.2.1 hs.2.2.2
  have hkey : sanitizeChars x.data = [] ∨
      matchSlugAux (sanitizeChars x.data) false = true := hmatch.2 hs.2.2.1
  constructor
  · rcases hkey with h | h
    · left
      show String.mk (sanitizeChars x.data) = ""
      rw [h]
    · right
      exact h
  · intro hlen3 _hlen160
    rcases hkey with h | h
    · exfalso
      have : (sanitizeSlug x).length = 0 := by
        show (String.mk (sanitizeChars x.data)).length = 0
        rw [h]
        rfl
      omega
    · simp only [slugFieldOk, Bool.and_eq_true, decide_eq_true_eq]
      exact ⟨⟨hlen3, _hlen160⟩, h⟩

/-- Witness for C9 at the concrete input `"Hello, World!"`. -/
theorem sanitizeSlug_regex_invariant_witness :
    3 ≤ (sanitizeSlug "Hello, World!").length ∧
      (sanitizeSlug "Hello, World!").length ≤ 160 ∧
      slugFieldOk (sanitizeSlug "Hello, World!") = true :=
  ⟨by decide, by decide,
    (sanitizeSlug_regex_invariant "Hello, World!").2 (by decide) (by decide)⟩

/-! ### `summarize` and the response mapper -/

/-- The single-character alternative of the markdown stripping regex in
`summarize`: the characters hash, greater-than, asterisk, underscore,
backtick and hyphen. -/
def mdTokenChar (c : Char) : Bool :=
  decide (c = '#') || decide (c = '>') || decide (c = '*') || decide (c = '_') ||
  decide (c = '\x60') || decide (c = '-')

/-- JavaScript line terminators, the characters not matched by `.`. -/
def isLineTerm (c : Char) : Bool :=
  c.toNat = 10 || c.toNat = 13 || c.toNat = 8232 || c.toNat = 8233

/-- Scan for the lazily matched `(.*?)\)` tail of the inline-link
alternative: the first `)` reachable over non-line-terminator characters;
returns the remainder after it. -/
def tryCloseParen : List Char → Option (List Char)
  | [] => none
  | c :: cs =>
    if c = ')' then some cs
    else if isLineTerm c then none
    else tryCloseParen cs

/-- After a candidate `]`: the rest matches only if `(` follows immediately
and its group closes with `)`. -/
def linkTail : List Char → Option (List Char)
  | [] => none
  | d :: ds => if d = '(' then tryCloseParen ds else none

/-- Backtracking scan for what follows the `[` of the inline-link
alternative of the stripping regex: find the first `]` immediately
followed by `(` whose group closes with `)`, extending the lazily matched
first group on failure, exactly as the regex engine does. -/
def tryLink : List Char → Option (List Char)
  | [] => none
  | c :: cs =>
    if isLineTerm c then none
    else if c = ']' then
      (match linkTail cs with
       | some rest => some rest
       | none => tryLink cs)
    else tryLink cs

theorem tryCloseParen_length :
    ∀ {l r : List Char}, tryCloseParen l = some r → r.length < l.length
  | [], r, h => by simp [tryCloseParen] at h
  | c :: cs, r, h => by
    by_cases hc : c = ')'
    · simp only [tryCloseParen, hc, if_true, Option.some.injEq] at h
      subst h
      simp
    · simp only [tryCloseParen, hc, if_false] at h
      by_cases ht : isLineTerm c
      · simp [ht] at h
      · simp only [ht, Bool.false_eq_true, if_false] at h
        exact Nat.lt_trans (tryCloseParen_length h) (by simp)

theorem linkTail_length :
    ∀ {l r : List Char}, linkTail l = some r → r.length < l.length
  | [], r, h => by simp [linkTail] at h
  | d :: ds, r, h => by
    by_cases hd : d = '('
    · simp only [linkTail, hd, if_true] at h
      exact Nat.lt_trans (tryCloseParen_length h) (by simp)
    · simp [linkTail, hd] at h

theorem tryLink_length :
    ∀ {l r : List Char}, tryLink l = some r → r.length < l.length
  | [], r, h => by simp [tryLink] at h
  | c :: cs, r, h => by
    by_cases ht : isLineTerm c
    · simp [tryLink, ht] at h
    · by_cases hc : c = ']'
      · subst hc
        simp only [tryLink] at h
        rw [if_neg (by decide : ¬isLineTerm ']' = true)] at h
        simp only [if_true] at h
        cases hlt : linkTail cs with
        | some rest =>
          rw [hlt] at h
          simp only [Option.some.injEq] at h
          subst h
          exact Nat.lt_trans (linkTail_length hlt) (by simp)
        | none =>
          rw [hlt] at h
          exact Nat.lt_trans (tryLink_length h) (by simp)
      · simp only [tryLink, ht, Bool.false_eq_true, if_false, hc] at h
        exact Nat.lt_trans (tryLink_length h) (by simp)

/-- Fuel-indexed scanner for
`.replace(/[#>*_` and backtick and `\-]|\[(.*?)\]\((.*?)\)/g, '')`:
at each position try the single-character alternative, then the
inline-link alternative, else keep the character and move on.  Each step
consumes at least one input character and one unit of fuel, so fuel
equal to the input length never runs out (`stripMdAux_fuel`). -/
def stripMdAux : Nat → List Char → List Char
  | 0, _ => []
  | _ + 1, [] => []
  | fuel + 1, c :: cs =>
    if mdTokenChar c then stripMdAux fuel cs
    else if c = '[' then
      (match tryLink cs with
       | some rest => stripMdAux fuel rest
       | none => c :: stripMdAux fuel cs)
    else c :: stripMdAux fuel cs

def stripMd (l : List Char) : List Char := stripMdAux l.length l

theorem stripMdAux_fuel :
    ∀ (fuel fuel2 : Nat) (l : List Char), l.length ≤ fuel → l.length ≤ fuel2 →
      stripMdAux fuel l = stripMdAux fuel2 l
  | 0, fuel2, l, h1, h2 => by
    have : l = [] := List.length_eq_zero.mp (Nat.le_zero.mp h1)
    subst this
    cases fuel2 <;> rfl
  | fuel + 1, fuel2, [], h1, h2 => by cases fuel2 <;> rfl
  | fuel + 1, fuel2, c :: cs, h1, h2 => by
    have hcs : cs.length ≤ fuel := by simp at h1; omega
    cases fuel2 with
    | zero => simp at h2
    | succ f2 =>
      have hcs2 : cs.length ≤ f2 := by simp at h2; omega
      by_cases hmd : mdTokenChar c
      · simp only [stripMdAux, hmd, if_true]
        exact stripMdAux_fuel fuel f2 cs hcs hcs2
      · by_cases hb : c = '['
        · simp only [stripMdAux, hmd, Bool.false_eq_true, if_false, hb, if_true]
          cases hlt : tryLink cs with
          | some rest =>
            have hr := tryLink_length hlt
            exact stripMdAux_fuel fuel f2 rest (by omega) (by omega)
          | none =>
            rw [stripMdAux_fuel fuel f2 cs hcs hcs2]
        · simp only [stripMdAux, hmd, Bool.false_eq_true, if_false, hb]
          rw [stripMdAux_fuel fuel f2 cs hcs hcs2]

theorem mem_stripMdAux :
    ∀ {fuel : Nat} {l : List Char} {c : Char}, c ∈ stripMdAux fuel l →
      mdTokenChar c = false
  | 0, l, c, h => by simp [stripMdAux] at h
  | fuel + 1, [], c, h => by simp [stripMdAux] at h
  | fuel + 1, a :: as, c, h => by
    by_cases hmd : mdTokenChar a
    · simp only [stripMdAux, hmd, if_true] at h
      exact mem_stripMdAux h
    · by_cases hb : a = '['
      · simp only [stripMdAux, hmd, Bool.false_eq_true, if_false, hb, if_true] at h
        cases hlt : tryLink as with
        | some rest =>
          rw [hlt] at h
          exact mem_stripMdAux h
        | none =>
          rw [hlt] at h
          rcases List.mem_cons.mp h with h | h
          · subst h; decide
          · exact mem_stripMdAux h
      · simp only [stripMdAux, hmd, Bool.false_eq_true, if_false, hb] at h
        rcases List.mem_cons.mp h with h | h
        · subst h; simpa using hmd
        · exact mem_stripMdAux h

theorem mem_stripMd {l : List Char} {c : Char} (h : c ∈ stripMd l) :
    mdTokenChar c = false := mem_stripMdAux h

/-- The `plain` value computed inside `summarize`: strip markdown tokens
and inline links, collapse `\s+` runs to single spaces, trim. -/
def plainOf (content : String) : List Char :=
  trimChars (runCollapse isWs ' ' (stripMd content.data) false)

/-- `summarize` from `src/server.js`: empty content yields the fallback,
otherwise the first 180 characters of `plain` with an ellipsis appended
when `plain` is longer than 180 characters. -/
def summarize (content fallback : String) : String :=
  if content = "" then fallback
  else
    String.mk ((plainOf content).take 180 ++
      (if 180 < (plainOf content).length then ['.', '.', '.'] else []))

/-- A stored blog document as the read path sees it (`createdAt` is the
store-assigned timestamp; `publishedAt` is optional). -/
structure BlogDoc where
  slug : String
  title : String
  author : String
  excerpt : String
  image : String
  content : String
  publishedAt : Option Int
  createdAt : Int

/-- The public representation produced by `toBlogResponse`. -/
structure PublicPost where
  slug : String
  title : String
  author : String
  excerpt : String
  image : Option String
  content : String
  date : String

/-- `formatDisplayDate`, parametric in the host runtime's en-US long-form
locale formatter (an external collaborator). -/
def formatDisplayDate (localeFormat : Int → String) (value : Option Int) : String :=
  match value with
  | none => ""
  | some t => localeFormat t

/-- `toBlogResponse` from `src/server.js`. -/
def toBlogResponse (localeFormat : Int → String) (doc : BlogDoc) : PublicPost :=
  { slug := doc.slug
    title := doc.title
    author := if doc.author = "" then "Perceptron Team" else doc.author
    excerpt := if doc.excerpt = "" then summarize doc.content "" else doc.excerpt
    image := if doc.image = "" then none else some doc.image
    content := doc.content
    date := formatDisplayDate localeFormat (some (doc.publishedAt.getD doc.createdAt)) }

/-! ### C7: excerpt selection and the derived summary -/

theorem trimChars_decomp (l : List Char) : ∃ s t, l = s ++ trimChars l ++ t := by
  refine ⟨l.takeWhile isWs,
    ((l.dropWhile isWs).reverse.takeWhile isWs).reverse, ?_⟩
  have h1 : l.takeWhile isWs ++ l.dropWhile isWs = l :=
    List.takeWhile_append_dropWhile ..
  have h2 : (l.dropWhile isWs).reverse.takeWhile isWs ++
      (l.dropWhile isWs).reverse.dropWhile isWs = (l.dropWhile isWs).reverse :=
    List.takeWhile_append_dropWhile ..
  have h3 : trimChars l ++ ((l.dropWhile isWs).reverse.takeWhile isWs).reverse =
      l.dropWhile isWs := by
    have hc := congrArg List.reverse h2
    rw [List.reverse_append, List.reverse_reverse] at hc
    exact hc
  rw [List.append_assoc, h3, h1]

theorem chain'_of_middle {R : Char → Char → Prop} {s m t : List Char}
    (h : List.Chain' R (s ++ m ++ t)) : List.Chain' R m := by
  rw [List.append_assoc] at h
  exact ((List.chain'_append.mp ((List.chain'_append.mp h).2.1)).1)

theorem mem_plainOf {content : String} {c : Char} (h : c ∈ plainOf content) :
    c = ' ' ∨ (c ∈ stripMd content.data ∧ isWs c = false) :=
  mem_runCollapse (mem_trimChars h)

theorem plainOf_no_md {content : String} {c : Char} (h : c ∈ plainOf content) :
    mdTokenChar c = false := by
  rcases mem_plainOf h with h | ⟨h, _⟩
  · subst h; decide
  · exact mem_stripMd h

theorem plainOf_ws_is_space {content : String} {c : Char} (h : c ∈ plainOf content)
    (hw : isWs c = true) : c = ' ' := by
  rcases mem_plainOf h with h | ⟨_, hws⟩
  · exact h
  · rw [hws] at hw; exact absurd hw (by simp)

theorem plainOf_no_double_ws (content : String) :
    (plainOf content).Chain' (fun a b => ¬(isWs a = true ∧ isWs b = true)) := by
  have hchain := (runCollapse_chain isWs ' ' (stripMd content.data) false).1
  obtain ⟨s, t, hdec⟩ :=
    trimChars_decomp (runCollapse isWs ' ' (stripMd content.data) false)
  rw [hdec] at hchain
  exact chain'_of_middle hchain

theorem head_trimChars_not_ws :
    ∀ (l : List Char), ∀ h ∈ (trimChars l).head?, isWs h = false := by
  intro l h hh
  unfold trimChars at hh
  rw [List.head?_reverse] at hh
  simp only [Option.mem_def] at hh
  have h2 := List.takeWhile_append_dropWhile (p := isWs)
    (l := (l.dropWhile isWs).reverse)
  have hg : ((l.dropWhile isWs).reverse.takeWhile isWs ++
      (l.dropWhile isWs).reverse.dropWhile isWs).getLast? = some h := by
    rw [List.getLast?_append, hh]
    rfl
  rw [h2, List.getLast?_reverse] at hg
  exact head?_dropWhile_false _ h hg

theorem last_trimChars_not_ws :
    ∀ (l : List Char), ∀ h ∈ (trimChars l).getLast?, isWs h = false := by
  intro l h hh
  unfold trimChars at hh
  rw [List.getLast?_reverse] at hh
  exact head?_dropWhile_false _ h hh

/-- C7: the public excerpt is the stored excerpt when that is non-empty and
otherwise the derived summary of the content; the derived `plain` text has
every markdown token character stripped, all whitespace collapsed to single
interior spaces with trimmed ends, and the summary is `plain` truncated to
180 characters with an ellipsis marker appended exactly when truncation
occurred. -/
theorem excerpt_contract (localeFormat : Int → String) (doc : BlogDoc)
    (content : String) (hc : content ≠ "") :
    (doc.excerpt ≠ "" → (toBlogResponse localeFormat doc).excerpt = doc.excerpt) ∧
    (doc.excerpt = "" →
      (toBlogResponse localeFormat doc).excerpt = summarize doc.content "") ∧
    (∀ c ∈ plainOf content, mdTokenChar c = false) ∧
    (∀ c ∈ plainOf content, isWs c = true → c = ' ') ∧
    (plainOf content).Chain' (fun a b => ¬(isWs a = true ∧ isWs b = true)) ∧
    (∀ h ∈ (plainOf content).head?, isWs h = false) ∧
    (∀ h ∈ (plainOf content).getLast?, isWs h = false) ∧
    ((plainOf content).length ≤ 180 →
      summarize content "" = String.mk (plainOf content)) ∧
    (180 < (plainOf content).length →
      summarize content "" = String.mk ((plainOf content).take 180 ++ ['.', '.', '.'])) := by
  refine ⟨?_, ?_, fun c hm => plainOf_no_md hm, fun c hm hw => plainOf_ws_is_space hm hw,
    plainOf_no_double_ws content, head_trimChars_not_ws _, last_trimChars_not_ws _,
    ?_, ?_⟩
  · intro he
    simp [toBlogResponse, he]
  · intro he
    simp [toBlogResponse, he]
  · intro hlen
    rw [summarize, if_neg hc, List.take_of_length_le hlen, if_neg (by omega),
      List.append_nil]
  · intro hlen
    rw [summarize, if_neg hc, if_pos hlen]

/-- Witness for C7 at a concrete document and content string. -/
theorem excerpt_contract_witness :
    let doc : BlogDoc :=
      { slug := "hello", title := "Hello", author := "", excerpt := "",
        image := "", content := "# Title with [a link](http://x) and *bold*",
        publishedAt := none, createdAt := 0 }
    ("# Title with [a link](http://x) and *bold*" : String) ≠ "" ∧
      doc.excerpt = "" ∧
      (toBlogResponse (fun _ => "") doc).excerpt = summarize doc.content "" ∧
      summarize "# Title with [a link](http://x) and *bold*" "" =
        String.mk (plainOf "# Title with [a link](http://x) and *bold*") := by
  intro doc
  refine ⟨by decide, rfl, ?_, ?_⟩
  · exact (excerpt_contract (fun _ => "") doc "x" (by decide)).2.1 rfl
  · exact (excerpt_contract (fun _ => "") doc
      "# Title with [a link](http://x) and *bold*" (by decide)).2.2.2.2.2.2.2.1
      (by decide)

/-! ### Token issuance and verification -/

/-- Immutable process configuration read at startup.  The startup checks
refuse to run with a falsy `ADMIN_SECRET_KEY`, and `AUTH_TOKEN_SECRET`
defaults to the admin secret when unset; the expiry duration is the parsed
`TOKEN_EXPIRY` in seconds (default thirty minutes). -/
structure Config where
  adminSecret : String
  authTokenSecret : String
  expirySec : Int
deriving DecidableEq

structure Claims where
  scope : List String
  issuedAt : Int
deriving DecidableEq

/-- Symbolic model of a signed JWT: the claims, the expiry timestamp in
seconds that `jwt.sign` derives from the clock and the expiry duration,
and the secret the token was signed with (standing in for the
signature). -/
structure Token where
  claims : Claims
  exp : Int
  secret : String
deriving DecidableEq

/-- `buildTokenPayload` from `src/server.js`: fixed scope list plus the
issuance clock reading in milliseconds. -/
def buildTokenPayload (nowMs : Int) : Claims :=
  { scope := ["blog:create"], issuedAt := nowMs }

/-- `jwt.sign(payload, secret, { expiresIn })`: the expiry is the floor of
the clock in seconds plus the expiry duration. -/
def jwtSign (c : Claims) (secret : String) (nowMs expirySec : Int) : Token :=
  { claims := c, exp := Int.ediv nowMs 1000 + expirySec, secret := secret }

/-- `jwt.verify(token, secret)`: succeeds with the decoded claims exactly
when the signing secret matches and the clock (floored to seconds) is
still before the expiry timestamp. -/
def jwtVerify (t : Token) (secret : String) (nowMs : Int) : Option Claims :=
  if t.secret = secret ∧ Int.ediv nowMs 1000 < t.exp then some t.claims else none

inductive LoginResult where
  | badRequest
  | unauthorized
  | ok (token : Token) (expiresInSec : Int)
deriving DecidableEq

/-- `POST /auth/login`: 400 when the secret key is missing or empty
(falsy), 401 when it differs from the admin secret, otherwise a fresh
signed token. -/
def login (cfg : Config) (nowMs : Int) (secretKey : Option String) : LoginResult :=
  match secretKey with
  | none => .badRequest
  | some k =>
    if k = "" then .badRequest
    else if k ≠ cfg.adminSecret then .unauthorized
    else
      .ok (jwtSign (buildTokenPayload nowMs) cfg.authTokenSecret nowMs cfg.expirySec)
        cfg.expirySec

inductive VerifyOutcome where
  | badRequest
  | invalid
  | valid (decoded : Claims)
deriving DecidableEq

/-- `POST /auth/verify`: 400 when the token is missing, 401 when
verification fails, otherwise the decoded claims. -/
def verifyRoute (cfg : Config) (nowMs : Int) (token : Option Token) : VerifyOutcome :=
  match token with
  | none => .badRequest
  | some t =>
    match jwtVerify t cfg.authTokenSecret nowMs with
    | some c => .valid c
    | none => .invalid

/-- Character-list model of `String.prototype.startsWith`. -/
def isPrefixChars : List Char → List Char → Bool
  | [], _ => true
  | _ :: _, [] => false
  | p :: ps, c :: cs => decide (p = c) && isPrefixChars ps cs

def jsStartsWith (s pre : String) : Bool := isPrefixChars pre.data s.data

/-- `authorization.slice('Bearer '.length)`. -/
def dropBearer (s : String) : String := String.mk (s.data.drop 7)

/-- C2: a login request carrying the configured admin secret returns a
token, and verifying that token under the same configuration (before its
expiry elapses) succeeds with decoded claims whose scope contains
`"blog:create"`.  The hypotheses record the startup invariant that the
admin secret is non-empty and that verification happens within the expiry
window. -/
theorem login_verify_roundtrip (cfg : Config) (nowMs verifyMs : Int)
    (hA : cfg.adminSecret ≠ "")
    (hT : Int.ediv verifyMs 1000 < Int.ediv nowMs 1000 + cfg.expirySec) :
    ∃ tok, login cfg nowMs (some cfg.adminSecret) = .ok tok cfg.expirySec ∧
      ∃ c, verifyRoute cfg verifyMs (some tok) = .valid c ∧
        "blog:create" ∈ c.scope := by
  refine ⟨jwtSign (buildTokenPayload nowMs) cfg.authTokenSecret nowMs cfg.expirySec,
    ?_, buildTokenPayload nowMs, ?_, by simp [buildTokenPayload]⟩
  · simp [login, hA]
  · simp [verifyRoute, jwtVerify, jwtSign, hT]

/-- Witness for C2 at a concrete configuration and clock. -/
theorem login_verify_roundtrip_witness :
    let cfg : Config :=
      { adminSecret := "s3cret", authTokenSecret := "signing", expirySec := 1800 }
    cfg.adminSecret ≠ "" ∧
      Int.ediv 5000 1000 < Int.ediv 0 1000 + cfg.expirySec ∧
      ∃ tok, login cfg 0 (some cfg.adminSecret) = .ok tok cfg.expirySec ∧
        ∃ c, verifyRoute cfg 5000 (some tok) = .valid c ∧
          "blog:create" ∈ c.scope := by
  intro cfg
  exact ⟨by decide, by decide,
    login_verify_roundtrip cfg 0 5000 (by decide) (by decide)⟩

/-! ### The auth middleware -/

inductive AuthResult where
  | missingCredential
  | invalidOrExpired
  | proceed
deriving DecidableEq

/-- The middleware's observable behavior: its verdict plus every
`console.error` line it emits. -/
structure MwResult where
  result : AuthResult
  logs : List String
deriving DecidableEq

/-- `verifyToken` from `src/server.js`, parametric over the external
`jwt.verify(_, AUTH_TOKEN_SECRET)` call on the raw token text: 401
missing-credential when the authorization header is absent, empty, or not
of the `Bearer ` scheme; otherwise verify the text after `Bearer `
(trimmed); on failure log `Invalid token` and answer 401
invalid-or-expired; on success fall through to the wrapped handler. -/
def verifyTokenMw (verify : String → Option Claims) (authHeader : Option String) :
    MwResult :=
  match authHeader with
  | none => { result := .missingCredential, logs := [] }
  | some a =>
    if a = "" ∨ jsStartsWith a "Bearer " = false then
      { result := .missingCredential, logs := [] }
    else
      match verify (jsTrim (dropBearer a)) with
      | some _ => { result := .proceed, logs := [] }
      | none => { result := .invalidOrExpired, logs := ["Invalid token"] }

/-- C3: the gate fails with missing-credential when the authorization
header is absent or not of the Bearer scheme, fails with
invalid-or-expired when verification of the carried token fails, and
otherwise lets the wrapped operation proceed — for every possible decoded
claim set, i.e. without inspecting the scope claim. -/
theorem auth_gate_contract (verify : String → Option Claims) :
    (verifyTokenMw verify none).result = .missingCredential ∧
    (∀ a : String, jsStartsWith a "Bearer " = false →
      (verifyTokenMw verify (some a)).result = .missingCredential) ∧
    (∀ a : String, jsStartsWith a "Bearer " = true →
      verify (jsTrim (dropBearer a)) = none →
      (verifyTokenMw verify (some a)).result = .invalidOrExpired) ∧
    (∀ (a : String) (c : Claims), jsStartsWith a "Bearer " = true →
      verify (jsTrim (dropBearer a)) = some c →
      (verifyTokenMw verify (some a)).result = .proceed) := by
  refine ⟨rfl, ?_, ?_, ?_⟩
  · intro a hns
    simp [verifyTokenMw, hns]
  · intro a hs hv
    have hcond : ¬(a = "" ∨ jsStartsWith a "Bearer " = false) := by
      rintro (hcon | hcon)
      · subst hcon; exact absurd hs (by decide)
      · rw [hs] at hcon; exact absurd hcon (by simp)
    simp [verifyTokenMw, hcond, hv]
  · intro a c hs hv
    have hcond : ¬(a = "" ∨ jsStartsWith a "Bearer " = false) := by
      rintro (hcon | hcon)
      · subst hcon; exact absurd hs (by decide)
      · rw [hs] at hcon; exact absurd hcon (by simp)
    simp [verifyTokenMw, hcond, hv]

/-- Witness for C3: a syntactically well-formed Bearer header whose token
fails verification is answered with invalid-or-expired. -/
theorem auth_gate_contract_witness :
    jsStartsWith "Bearer abc" "Bearer " = true ∧
      (fun _ : String => (none : Option Claims)) (jsTrim (dropBearer "Bearer abc")) =
        none ∧
      (verifyTokenMw (fun _ => none) (some "Bearer abc")).result = .invalidOrExpired :=
  ⟨by decide, rfl,
    (auth_gate_contract (fun _ => none)).2.2.1 "Bearer abc" (by decide) rfl⟩

/-! ### The create-post pipeline -/

/-- A create-post request body.  Each field is either absent/null
(nullish) or a string; the service only distinguishes these cases. -/
structure Body where
  title : Option String
  slug : Option String
  author : Option String
  date : Option String
  excerpt : Option String
  image : Option String
  content : Option String
deriving DecidableEq

/-- The payload accepted by `blogPayloadSchema.safeParse`, with zod's
`author` default applied. -/
structure ParsedData where
  title : String
  slug : String
  author : String
  date : Option String
  excerpt : Option String
  image : Option String
  content : String
deriving DecidableEq

def checkOptLen (o : Option String) (n : Nat) : Bool :=
  match o with
  | none => true
  | some s => decide (s.length ≤ n)

/-- zod `image` rule: `.url().optional().or(z.literal(''))`, parametric
over the external URL validity check. -/
def checkImage (urlOk : String → Bool) (o : Option String) : Bool :=
  match o with
  | none => true
  | some s => urlOk s || decide (s = "")

/-- `blogPayloadSchema.safeParse`: required `title` (3 to 160), required
`slug` (3 to 160 plus the character-class regex), optional `author`
(at most 120, defaulted to the empty string), optional `date` (at most
40), optional `excerpt` (at most 320), optional `image` (URL or empty),
required `content` (at least 20). -/
def safeParse (urlOk : String → Bool) (b : Body) : Option ParsedData :=
  match b.title, b.slug, b.content with
  | some t, some s, some c =>
    if (decide (3 ≤ t.length) && decide (t.length ≤ 160)) &&
        slugFieldOk s &&
        checkOptLen b.author 120 && checkOptLen b.date 40 &&
        checkOptLen b.excerpt 320 &&
        checkImage urlOk b.image && decide (20 ≤ c.length) then
      some { title := t, slug := s, author := b.author.getD "", date := b.date,
             excerpt := b.excerpt, image := b.image, content := c }
    else none
  | _, _, _ => none

/-- `String(req.body?.slug ?? req.body?.title ?? '')`: the slug field if
non-nullish (even empty), else the title, else the empty string. -/
def slugCandidate (body : Body) : String :=
  ((body.slug).orElse (fun _ => body.title)).getD ""

/-- The payload the handler validates: the body with its slug replaced by
the normalized candidate. -/
def normalizedPayload (body : Body) : Body :=
  { body with slug := some (sanitizeSlug (slugCandidate body)) }

/-- `candidate.setUTCHours(0, 0, 0, 0)` on an epoch-milliseconds value. -/
def startOfUTCDay (t : Int) : Int := t - t % 86400000

/-- The `publishedAt` computation of the create handler, parametric over
the host runtime's `new Date(string)` parser (`none` models an invalid
date): only a truthy (present, non-empty) date string is considered, a
parse failure is silently dropped, and a parsed date is normalized to the
start of its UTC calendar day. -/
def computePublishedAt (parseDate : String → Option Int) (date : Option String) :
    Option Int :=
  match date with
  | none => none
  | some d =>
    if d = "" then none
    else
      match parseDate d with
      | none => none
      | some t => some (startOfUTCDay t)

/-- The document handed to the repository insert: validated fields,
trimmed, with the author fallback and empty-string defaults applied. -/
structure NewPost where
  slug : String
  title : String
  author : String
  excerpt : String
  image : String
  content : String
  publishedAt : Option Int
deriving DecidableEq

def buildNewPost (parseDate : String → Option Int) (d : ParsedData) : NewPost :=
  { slug := d.slug
    title := jsTrim d.title
    author := if jsTrim d.author = "" then "Perceptron Team" else jsTrim d.author
    excerpt := match d.excerpt with | none => "" | some e => jsTrim e
    image := match d.image with | none => "" | some i => jsTrim i
    content := jsTrim d.content
    publishedAt := computePublishedAt parseDate d.date }

/-- Outcome of one repository insert (an external collaborator):
success, duplicate-key failure (`error.code === 11000`), or any other
store failure. -/
inductive InsertResult where
  | ok
  | dupKey
  | otherError
deriving DecidableEq

inductive CreateOutcome where
  | created (slug : String)
  | validationError
  | slugConflict
  | persistenceFailed
deriving DecidableEq

/-- Observable behavior of one `POST /blogs` handler run: the response
(modelled by its outcome; a created post answers 201 with the slug only),
the arguments of every repository insert performed, in order, and every
`console.error` line. -/
structure CreateResult where
  outcome : CreateOutcome
  insertCalls : List NewPost
  logs : List String
deriving DecidableEq

/-- The `POST /blogs` handler body (after the auth gate): normalize the
slug candidate, validate, build the document, insert once; 400 on
validation failure, 201 with the slug on success, 409 on duplicate key,
500 (logged) on any other store failure. -/
def createPost (urlOk : String → Bool) (parseDate : String → Option Int)
    (body : Body) (insert : NewPost → InsertResult) : CreateResult :=
  match safeParse urlOk (normalizedPayload body) with
  | none => { outcome := .validationError, insertCalls := [], logs := [] }
  | some data =>
    let doc := buildNewPost parseDate data
    match insert doc with
    | .ok => { outcome := .created doc.slug, insertCalls := [doc], logs := [] }
    | .dupKey => { outcome := .slugConflict, insertCalls := [doc], logs := [] }
    | .otherError =>
      { outcome := .persistenceFailed, insertCalls := [doc],
        logs := ["Failed to persist blog post"] }

/-- C1: a create request that passes validation performs exactly one
repository insert, with the validated and defaulted document; on success
the response is 201 carrying only the created slug, a duplicate-key
signal terminates with the slug-conflict outcome, and any other store
failure terminates with the persistence-failed outcome — with no second
insert in any case. -/
theorem create_pipeline_contract (urlOk : String → Bool)
    (parseDate : String → Option Int) (body : Body)
    (insert : NewPost → InsertResult) (data : ParsedData)
    (hv : safeParse urlOk (normalizedPayload body) = some data) :
    (createPost urlOk parseDate body insert).insertCalls =
      [buildNewPost parseDate data] ∧
    (insert (buildNewPost parseDate data) = .ok →
      (createPost urlOk parseDate body insert).outcome =
        .created (buildNewPost parseDate data).slug) ∧
    (insert (buildNewPost parseDate data) = .dupKey →
      (createPost urlOk parseDate body insert).outcome = .slugConflict) ∧
    (insert (buildNewPost parseDate data) = .otherError →
      (createPost urlOk parseDate body insert).outcome = .persistenceFailed) := by
  cases hins : insert (buildNewPost parseDate data) with
  | ok => simp [createPost, hv, hins]
  | dupKey => simp [createPost, hv, hins]
  | otherError => simp [createPost, hv, hins]

/-- Witness for C1: a concrete valid body inserted successfully. -/
theorem create_pipeline_contract_witness :
    let body : Body :=
      { title := some "My Post", slug := some "my-post", author := none,
        date := none, excerpt := none, image := none,
        content := some "This content is definitely long enough." }
    let data : ParsedData :=
      { title := "My Post", slug := "my-post", author := "", date := none,
        excerpt := none, image := none,
        content := "This content is definitely long enough." }
    safeParse (fun _ => false) (normalizedPayload body) = some data ∧
      (fun _ : NewPost => InsertResult.ok) (buildNewPost (fun _ => none) data) =
        .ok ∧
      (createPost (fun _ => false) (fun _ => none) body (fun _ => .ok)).outcome =
        .created (buildNewPost (fun _ => none) data).slug := by
  intro body data
  exact ⟨by decide, rfl,
    (create_pipeline_contract (fun _ => false) (fun _ => none) body (fun _ => .ok)
      data (by decide)).2.1 rfl⟩

/-- C10: the slug candidate is the payload's slug field whenever that
field is non-nullish (even the empty string), the title is consulted only
when the slug is nullish, and a request whose slug field is the empty
string fails validation (no insert happens) regardless of its title. -/
theorem slug_precedence (body : Body) :
    (∀ s, body.slug = some s → slugCandidate body = s) ∧
    (body.slug = none → slugCandidate body = body.title.getD "") ∧
    (body.slug = some "" → ∀ (urlOk : String → Bool)
      (parseDate : String → Option Int) (insert : NewPost → InsertResult),
      (createPost urlOk parseDate body insert).outcome = .validationError ∧
      (createPost urlOk parseDate body insert).insertCalls = []) := by
  refine ⟨?_, ?_, ?_⟩
  · intro s hs
    simp [slugCandidate, hs, Option.orElse]
  · intro hs
    simp [slugCandidate, hs, Option.orElse]
  · intro hs urlOk parseDate insert
    have hcand : slugCandidate body = "" := by
      simp [slugCandidate, hs, Option.orElse]
    have hslug : (normalizedPayload body).slug = some "" := by
      simp only [normalizedPayload, hcand]
      rfl
    have hnone : safeParse urlOk (normalizedPayload body) = none := by
      have hf : slugFieldOk "" = false := by decide
      unfold safeParse
      rw [hslug]
      cases (normalizedPayload body).title with
      | none => rfl
      | some t =>
        cases (normalizedPayload body).content with
        | none => rfl
        | some c => simp [hf]
    constructor <;> simp [createPost, hnone]

/-- Witness for C10: an empty slug together with a perfectly
normalizable title is still rejected. -/
theorem slug_precedence_witness :
    let body : Body :=
      { title := some "A Valid Title", slug := some "", author := none,
        date := none, excerpt := none, image := none,
        content := some "This content is definitely long enough." }
    body.slug = some "" ∧
      (createPost (fun _ => false) (fun _ => none) body (fun _ => .ok)).outcome =
        .validationError := by
  intro body
  exact ⟨rfl, ((slug_precedence body).2.2 rfl (fun _ => false) (fun _ => none)
    (fun _ => .ok)).1⟩

/-! ### C5: date handling in the create pipeline -/

/-- C5 counterexample: the claim says a date string that fails to parse
never makes validation fail because of the date, but `blogPayloadSchema`
bounds the date field at 40 characters.  A 41-character garbage date
string (which no parser accepts — here `parseDate` is constantly `none`)
makes the whole request fail validation, while the identical payload
without the date is created: validation failed precisely because of the
date. -/
theorem date_validation_counterexample :
    (createPost (fun _ => false) (fun _ => none)
        { title := some "My Post", slug := some "my-post", author := none,
          date := some "xxxxxxxxxxxxxxxxxxxxxxxxxxxxxxxxxxxxxxxxx",
          excerpt := none, image := none,
          content := some "This content is definitely long enough." }
        (fun _ => .ok)).outcome = .validationError ∧
      ("xxxxxxxxxxxxxxxxxxxxxxxxxxxxxxxxxxxxxxxxx" : String).length = 41 ∧
      (createPost (fun _ => false) (fun _ => none)
        { title := some "My Post", slug := some "my-post", author := none,
          date := none, excerpt := none, image := none,
          content := some "This content is definitely long enough." }
        (fun _ => .ok)).outcome = .created "my-post" := by
  refine ⟨by decide, by decide, by decide⟩

/-- C5 amended: for a payload that passes validation, a supplied date
string that parses is stored as `publishedAt` normalized to the start of
its UTC calendar day, and a supplied date string that is empty or fails
to parse silently omits `publishedAt`; validation is independent of date
parseability, and a date string within the schema's 40-character bound
never makes validation fail — but longer date strings are rejected by
validation regardless of parseability. -/
theorem publishedAt_contract (urlOk : String → Bool)
    (parseDate : String → Option Int) :
    (∀ (body : Body) (data : ParsedData),
      safeParse urlOk (normalizedPayload body) = some data →
      (∀ d t, data.date = some d → d ≠ "" → parseDate d = some t →
        (buildNewPost parseDate data).publishedAt = some (startOfUTCDay t)) ∧
      (∀ d, data.date = some d → (d = "" ∨ parseDate d = none) →
        (buildNewPost parseDate data).publishedAt = none) ∧
      (data.date = none → (buildNewPost parseDate data).publishedAt = none)) ∧
    (∀ (b : Body) (d : String), d.length ≤ 40 →
      (safeParse urlOk { b with date := some d }).isSome =
        (safeParse urlOk { b with date := none }).isSome) := by
  constructor
  · intro body data _hv
    refine ⟨?_, ?_, ?_⟩
    · intro d t hd hne hp
      simp [buildNewPost, computePublishedAt, hd, hne, hp]
    · intro d hd hcase
      rcases hcase with hcase | hcase
      · simp [buildNewPost, computePublishedAt, hd, hcase]
      · by_cases hne : d = ""
        · simp [buildNewPost, computePublishedAt, hd, hne]
        · simp [buildNewPost, computePublishedAt, hd, hne, hcase]
    · intro hd
      simp [buildNewPost, computePublishedAt, hd]
  · intro b d hlen
    cases hbt : b.title <;> cases hbs : b.slug <;> cases hbc : b.content <;>
      simp [safeParse, hbt, hbs, hbc, checkOptLen, hlen]
    split <;> rfl

/-- Witness for the amended C5 at a concrete payload and parser. -/
theorem publishedAt_contract_witness :
    let body : Body :=
      { title := some "My Post", slug := some "my-post", author := none,
        date := some "2024-01-05", excerpt := none, image := none,
        content := some "This content is definitely long enough." }
    let data : ParsedData :=
      { title := "My Post", slug := "my-post", author := "",
        date := some "2024-01-05", excerpt := none, image := none,
        content := "This content is definitely long enough." }
    let parseDate : String → Option Int := fun _ => some 1704456789123
    safeParse (fun _ => false) (normalizedPayload body) = some data ∧
      data.date = some "2024-01-05" ∧ ("2024-01-05" : String) ≠ "" ∧
      parseDate "2024-01-05" = some 1704456789123 ∧
      (buildNewPost parseDate data).publishedAt =
        some (startOfUTCDay 1704456789123) := by
  intro body data parseDate
  refine ⟨by decide, rfl, by decide, rfl, ?_⟩
  exact (((publishedAt_contract (fun _ => false) parseDate).1 body data
    (by decide)).1 "2024-01-05" 1704456789123 rfl (by decide) rfl)

/-! ### The list endpoint -/

def isDigitChar (c : Char) : Bool := decide (48 ≤ c.toNat) && decide (c.toNat ≤ 57)

def digitVal (c : Char) : Nat := c.toNat - 48

def digitsToNat (l : List Char) : Nat :=
  l.foldl (fun acc c => acc * 10 + digitVal c) 0

def parseIntFrom (sign : Int) (l : List Char) : Option Int :=
  if l.takeWhile isDigitChar = [] then none
  else some (sign * (digitsToNat (l.takeWhile isDigitChar) : Int))

/-- `Number.parseInt(x, 10)` on `req.query.limit`: `undefined` (absent)
gives `NaN` (modelled `none`); otherwise skip leading whitespace, read an
optional sign and the longest digit prefix; no digits give `NaN`. -/
def jsParseInt (s : Option String) : Option Int :=
  match s with
  | none => none
  | some str =>
    match str.data.dropWhile isWs with
    | '-' :: r => parseIntFrom (-1) r
    | '+' :: r => parseIntFrom 1 r
    | l => parseIntFrom 1 l

/-- `Number.isFinite(parsedLimit) && parsedLimit > 0 ?
Math.min(parsedLimit, 100) : undefined`. -/
def effectiveLimit (limitParam : Option String) : Option Int :=
  match jsParseInt limitParam with
  | none => none
  | some n => if 0 < n then some (min n 100) else none

/-- Comparison of optional `publishedAt` dates in the store's order:
a missing date is below every present date. -/
def optDateLT : Option Int → Option Int → Bool
  | none, some _ => true
  | none, none => false
  | some _, none => false
  | some x, some y => decide (x < y)

/-- The store's sort order for `.sort({ publishedAt: -1, createdAt: -1 })`:
`a` may come before `b` when its `publishedAt` is greater, with greater
`createdAt` breaking ties. -/
def postLE (a b : BlogDoc) : Bool :=
  if a.publishedAt = b.publishedAt then decide (b.createdAt ≤ a.createdAt)
  else optDateLT b.publishedAt a.publishedAt

/-- The repository query of `GET /blogs`: all documents sorted by
`publishedAt` descending then `createdAt` descending. -/
def sortPosts (store : List BlogDoc) : List BlogDoc := store.mergeSort postLE

/-- `.limit(safeLimit ?? 0)`: a positive limit truncates, `0` means no
limit. -/
def applyLimit (n : Option Int) (l : List BlogDoc) : List BlogDoc :=
  match n with
  | none => l
  | some k => l.take k.toNat

/-- The `GET /blogs` handler on a given store snapshot. -/
def listBlogs (localeFormat : Int → String) (store : List BlogDoc)
    (limitParam : Option String) : List PublicPost :=
  (applyLimit (effectiveLimit limitParam) (sortPosts store)).map
    (toBlogResponse localeFormat)

theorem optDateLT_trans {x y z : Option Int} (h1 : optDateLT x y = true)
    (h2 : optDateLT y z = true) : optDateLT x z = true := by
  cases x <;> cases y <;> cases z <;> simp [optDateLT] at *
  omega

theorem optDateLT_asymm {x y : Option Int} (h1 : optDateLT x y = true)
    (h2 : optDateLT y x = true) : False := by
  cases x <;> cases y <;> simp [optDateLT] at *
  omega

theorem optDateLT_total {x y : Option Int} (h : ¬x = y) :
    optDateLT x y = true ∨ optDateLT y x = true := by
  cases x <;> cases y <;> simp [optDateLT] at *
  omega

theorem postLE_trans (a b c : BlogDoc) (h1 : postLE a b) (h2 : postLE b c) :
    postLE a c := by
  unfold postLE at *
  by_cases hab : a.publishedAt = b.publishedAt <;>
    by_cases hbc : b.publishedAt = c.publishedAt
  · rw [if_pos hab] at h1
    rw [if_pos hbc] at h2
    rw [if_pos (hab.trans hbc)]
    simp only [decide_eq_true_eq] at *
    omega
  · rw [if_pos hab] at h1
    rw [if_neg hbc] at h2
    have hac : ¬a.publishedAt = c.publishedAt := fun hcon => hbc (hab.symm.trans hcon)
    rw [if_neg hac, hab]
    exact h2
  · rw [if_neg hab] at h1
    rw [if_pos hbc] at h2
    have hac : ¬a.publishedAt = c.publishedAt := fun hcon => hab (hcon.trans hbc.symm)
    rw [if_neg hac, ← hbc]
    exact h1
  · rw [if_neg hab] at h1
    rw [if_neg hbc] at h2
    have hac : ¬a.publishedAt = c.publishedAt := by
      intro hcon
      exact optDateLT_asymm h1 (hcon ▸ h2)
    rw [if_neg hac]
    exact optDateLT_trans h2 h1

theorem postLE_total (a b : BlogDoc) : postLE a b || postLE b a := by
  unfold postLE
  by_cases hab : a.publishedAt = b.publishedAt
  · rw [if_pos hab, if_pos hab.symm]
    simp only [Bool.or_eq_true, decide_eq_true_eq]
    omega
  · rw [if_neg hab, if_neg (fun hcon => hab hcon.symm)]
    simp only [Bool.or_eq_true]
    exact optDateLT_total (fun hcon => hab hcon.symm)

/-- C6: the list endpoint parses the optional limit as a positive integer
capped at 100 (anything non-positive or non-numeric means no cap), reads
the store sorted by `publishedAt` descending with `createdAt` descending
as tiebreak, and maps each document through the response mapper. -/
theorem list_contract (localeFormat : Int → String) (store : List BlogDoc)
    (limitParam : Option String) :
    (sortPosts store).Perm store ∧
    (sortPosts store).Pairwise (fun a b => postLE a b = true) ∧
    (∀ n : Int, jsParseInt limitParam = some n → 0 < n →
      listBlogs localeFormat store limitParam =
        ((sortPosts store).take (min n 100).toNat).map (toBlogResponse localeFormat)) ∧
    ((jsParseInt limitParam = none ∨
        ∃ n : Int, jsParseInt limitParam = some n ∧ n ≤ 0) →
      listBlogs localeFormat store limitParam =
        (sortPosts store).map (toBlogResponse localeFormat)) := by
  refine ⟨List.mergeSort_perm store postLE, ?_, ?_, ?_⟩
  · exact List.sorted_mergeSort postLE_trans postLE_total store
  · intro n hn hpos
    simp [listBlogs, effectiveLimit, hn, hpos, applyLimit]
  · intro hcase
    rcases hcase with hcase | ⟨n, hn, hnp⟩
    · simp [listBlogs, effectiveLimit, hcase, applyLimit]
    · simp [listBlogs, effectiveLimit, hn, applyLimit, Int.not_lt.mpr hnp]

/-- Witness for C6: the limit string `"5"` parses, is positive, and the
output is the capped prefix of the sorted store. -/
theorem list_contract_witness :
    jsParseInt (some "5") = some 5 ∧ (0 : Int) < 5 ∧
      listBlogs (fun _ => "") [] (some "5") =
        ((sortPosts []).take ((min (5 : Int) 100)).toNat).map
          (toBlogResponse (fun _ => "")) :=
  ⟨by decide, by decide,
    (list_contract (fun _ => "") [] (some "5")).2.2.1 5 (by decide) (by decide)⟩

/-! ### C8: logging of client failures -/

/-- C8 counterexample: the claim says requests failing with
invalid-or-expired produce no server-side error log, but the auth
middleware logs `Invalid token` via `console.error` before answering
401. -/
theorem auth_log_counterexample :
    (verifyTokenMw (fun _ => none) (some "Bearer bad")).result =
        .invalidOrExpired ∧
      (verifyTokenMw (fun _ => none) (some "Bearer bad")).logs ≠ [] :=
  ⟨by decide, by decide⟩

/-- C8 amended: missing-credential failures of the auth gate and
validation failures and slug conflicts of the create pipeline produce no
server-side error log — but an invalid-or-expired failure in the auth
middleware logs exactly the `Invalid token` line. -/
theorem failure_logging_policy (verify : String → Option Claims)
    (h : Option String) (urlOk : String → Bool)
    (parseDate : String → Option Int) (body : Body)
    (insert : NewPost → InsertResult) :
    ((verifyTokenMw verify h).result = .missingCredential →
      (verifyTokenMw verify h).logs = []) ∧
    ((verifyTokenMw verify h).result = .invalidOrExpired →
      (verifyTokenMw verify h).logs = ["Invalid token"]) ∧
    ((createPost urlOk parseDate body insert).outcome = .validationError →
      (createPost urlOk parseDate body insert).logs = []) ∧
    ((createPost urlOk parseDate body insert).outcome = .slugConflict →
      (createPost urlOk parseDate body insert).logs = []) := by
  refine ⟨?_, ?_, ?_, ?_⟩
  · cases h with
    | none => intro; rfl
    | some a =>
      by_cases hcond : a = "" ∨ jsStartsWith a "Bearer " = false
      · intro; simp [verifyTokenMw, hcond]
      · cases hv : verify (jsTrim (dropBearer a)) <;>
          simp [verifyTokenMw, hcond, hv]
  · cases h with
    | none => intro hcon; simp [verifyTokenMw] at hcon
    | some a =>
      by_cases hcond : a = "" ∨ jsStartsWith a "Bearer " = false
      · intro hcon; simp [verifyTokenMw, hcond] at hcon
      · cases hv : verify (jsTrim (dropBearer a)) <;>
          simp [verifyTokenMw, hcond, hv]
  · cases hsp : safeParse urlOk (normalizedPayload body) with
    | none => intro; simp [createPost, hsp]
    | some data =>
      cases hins : insert (buildNewPost parseDate data) <;>
        simp [createPost, hsp, hins]
  · cases hsp : safeParse urlOk (normalizedPayload body) with
    | none => intro hcon; simp [createPost, hsp] at hcon
    | some data =>
      cases hins : insert (buildNewPost parseDate data) <;>
        simp [createPost, hsp, hins]

/-- Witness for the amended C8: a missing header logs nothing, an invalid
token logs the one line, a validation failure logs nothing. -/
theorem failure_logging_policy_witness :
    let emptyBody : Body :=
      { title := none, slug := none, author := none, date := none,
        excerpt := none, image := none, content := none }
    (verifyTokenMw (fun _ => none) none).result = .missingCredential ∧
      (verifyTokenMw (fun _ => none) none).logs = [] ∧
      (verifyTokenMw (fun _ => none) (some "Bearer bad")).logs =
        ["Invalid token"] ∧
      (createPost (fun _ => false) (fun _ => none) emptyBody
        (fun _ => .ok)).logs = [] := by
  intro emptyBody
  refine ⟨by decide, ?_, ?_, ?_⟩
  · exact (failure_logging_policy (fun _ => none) none (fun _ => false)
      (fun _ => none) emptyBody (fun _ => .ok)).1 (by decide)
  · exact (failure_logging_policy (fun _ => none) (some "Bearer bad")
      (fun _ => false) (fun _ => none) emptyBody (fun _ => .ok)).2.1 (by decide)
  · exact (failure_logging_policy (fun _ => none) none (fun _ => false)
      (fun _ => none) emptyBody (fun _ => .ok)).2.2.1 (by decide)

end PerceptronBackend
